import Mathlib

/-!
Verification of the path-extrapolation core of the image-explorer service.

The embedding covers `src/vector.ts` (vector algebra) and
`src/path-extrapolator.ts` (the four extrapolation strategies, the strategy
registry and the construction-time parameter validation).  JavaScript numbers
are modelled by exact reals; thrown exceptions by `Except`; the
`name -> instance` registry object by an association list.
-/

namespace ImageExplorer

/-- `export type Vector = number[]` (vector.ts line 1), with JS doubles
modelled as exact reals. -/
abbrev Vector := List ℝ

/-- `add(a, b) = a.map((val, i) => val + b[i])` (vector.ts).  On
dimension-conformant inputs (the only way the strategies call it) this is the
element-wise sum; the raw out-of-range behaviour is captured by
`Vec.addEntries` below. -/
def Vec.add (a b : Vector) : Vector :=
  List.zipWith (fun x y => x + y) a b

/-- `subtract(a, b) = a.map((val, i) => val - b[i])` (vector.ts). -/
def Vec.subtract (a b : Vector) : Vector :=
  List.zipWith (fun x y => x - y) a b

/-- `scale(v, s) = v.map((val) => val * scalar)` (vector.ts). -/
def Vec.scale (v : Vector) (s : ℝ) : Vector :=
  v.map (fun x => x * s)

/-- `dot(a, b) = a.reduce((sum, val, i) => sum + val * b[i], 0)` (vector.ts). -/
def Vec.dot (a b : Vector) : ℝ :=
  (List.zipWith (fun x y => x * y) a b).sum

/-- `magnitude(v) = Math.sqrt(dot(v, v))` (vector.ts). -/
noncomputable def Vec.magnitude (v : Vector) : ℝ :=
  Real.sqrt (Vec.dot v v)

/-- `normalize(v)`: `mag === 0 ? v : scale(v, 1 / mag)` (vector.ts). -/
noncomputable def Vec.normalize (v : Vector) : Vector :=
  if Vec.magnitude v = 0 then v else Vec.scale v (1 / Vec.magnitude v)

/-- `zero(dimensions) = new Array(dimensions).fill(0)` (vector.ts). -/
def Vec.zero (dimensions : ℕ) : Vector :=
  List.replicate dimensions 0

/-- `lerp(a, b, t) = a.map((val, i) => val + t * (b[i] - val))` (vector.ts). -/
def Vec.lerp (a b : Vector) (t : ℝ) : Vector :=
  List.zipWith (fun x y => x + t * (y - x)) a b

/-- `mean(vectors) = scale(vectors.reduce(add, zero(vectors[0].length)),
1 / vectors.length)` (vector.ts); the empty-input throw is guarded by every
caller in the strategies, so the empty case here is unreachable junk. -/
noncomputable def Vec.mean (vectors : List Vector) : Vector :=
  Vec.scale (vectors.foldl Vec.add (Vec.zero (vectors.headD []).length))
    (1 / (vectors.length : ℝ))

/-- Modelled from the spec: vector.ts's `sum` is imported by the PCA strategy
(`sum(centered.map((x) => scale(x, dot(x, v))))`) but the copy of vector.ts in
the repository snapshot predates it; the spec describes the computed value as
`Cv = Σ_i (dot(x_i, v)) * x_i` over all points, so `sum` is the element-wise
sum of a list of vectors, modelled like `mean`'s reduce without the final
scaling. -/
def Vec.sum (vectors : List Vector) : Vector :=
  vectors.foldl Vec.add (Vec.zero (vectors.headD []).length)

/-- Entrywise result of JS `a.map((val, i) => val + b[i])` on inputs of
arbitrary lengths: reading `b[i]` past the end of `b` yields `undefined` and
`val + undefined` is `NaN`; `none` models those NaN entries.  The result
always has `a`'s length (the map runs over `a`), truncating `b` when `a` is
shorter. -/
def Vec.addEntries : List ℝ → List ℝ → List (Option ℝ)
  | [], _ => []
  | _ :: as, [] => none :: Vec.addEntries as []
  | a :: as, b :: bs => some (a + b) :: Vec.addEntries as bs

/-- Entrywise result of JS `a.map((val, i) => val - b[i])`, as in
`Vec.addEntries`. -/
def Vec.subtractEntries : List ℝ → List ℝ → List (Option ℝ)
  | [], _ => []
  | _ :: as, [] => none :: Vec.subtractEntries as []
  | a :: as, b :: bs => some (a - b) :: Vec.subtractEntries as bs

/-- Errors thrown by the extrapolation core (`throw new Error(...)` in
path-extrapolator.ts), split by the spec's taxonomy: the per-call empty-path
error and the construction-time parameter error with the thrown message. -/
inductive ExtrapolationError
  | emptyPath
  | invalidParameter (message : String)
deriving DecidableEq

/-- Construction-time parameters of `PCAPathExtrapolator`
(path-extrapolator.ts lines 247-278). -/
structure PCAParams where
  extrapolationFactor : ℝ
  projectionWindow : ℕ
  decayFactor : ℝ

/-- `LastPathExtrapolator.extrapolate`: throw on the empty path, otherwise
return `path.at(-1)` (path-extrapolator.ts lines 151-158). -/
def LastPathExtrapolator.extrapolate (path : List Vector) :
    Except ExtrapolationError Vector :=
  match path.getLast? with
  | none => .error .emptyPath
  | some v => .ok v

/-- One EMA update of `computeVelocityEma`:
`ema.map((val, d) => alpha * velocity[d] + (1 - alpha) * val)`
(path-extrapolator.ts lines 213-215). -/
def MomentumPathExtrapolator.emaStep (alpha : ℝ) (ema velocity : Vector) :
    Vector :=
  List.zipWith (fun val v => alpha * v + (1 - alpha) * val) ema velocity

/-- The loop body of `computeVelocityEma` for indices `i ≥ 2`: `ema` holds the
accumulator, `prev` the previous path point and the list the remaining points
(path-extrapolator.ts lines 206-217). -/
def MomentumPathExtrapolator.emaGo (alpha : ℝ) :
    Vector → Vector → List Vector → Vector
  | ema, _, [] => ema
  | ema, prev, p :: rest =>
      MomentumPathExtrapolator.emaGo alpha
        (MomentumPathExtrapolator.emaStep alpha ema (Vec.subtract p prev)) p rest

/-- `MomentumPathExtrapolator.computeVelocityEma` (path-extrapolator.ts lines
202-220): `ema` starts at `zero(path[0].length)`; the `i = 1` iteration
overwrites it with the first velocity and later iterations apply the EMA
update. -/
def MomentumPathExtrapolator.computeVelocityEma (alpha : ℝ)
    (path : List Vector) : Vector :=
  match path with
  | [] => []
  | [p0] => Vec.zero p0.length
  | p0 :: p1 :: rest =>
      MomentumPathExtrapolator.emaGo alpha (Vec.subtract p1 p0) p1 rest

/-- `MomentumPathExtrapolator.extrapolate` (path-extrapolator.ts lines
183-200): throw on empty, return the single point unchanged, otherwise
`normalize(add(lastPosition, velocityEma))`.  The `assert(lastPosition)` never
fires on a non-empty path, so `getLastD` is exact here. -/
noncomputable def MomentumPathExtrapolator.extrapolate (alpha : ℝ) (path : List Vector) :
    Except ExtrapolationError Vector :=
  match path with
  | [] => .error .emptyPath
  | [p] => .ok p
  | p0 :: p1 :: rest =>
      .ok (Vec.normalize
        (Vec.add ((p0 :: p1 :: rest).getLastD [])
          (MomentumPathExtrapolator.computeVelocityEma alpha
            (p0 :: p1 :: rest))))

/-- The spec's wording of the velocity EMA, for comparison with
`computeVelocityEma`: velocities `v_i = path[i] - path[i-1]` for
`i = 1..n-1`; seed `ema = v_1`; fold `ema ← alpha * v_i + (1 - alpha) * ema`
over the remaining velocities. -/
def MomentumPathExtrapolator.emaFromSpec (alpha : ℝ) (path : List Vector) :
    Vector :=
  match List.zipWith Vec.subtract path.tail path with
  | [] => []
  | v1 :: vs =>
      vs.foldl
        (fun ema v => Vec.add (Vec.scale v alpha) (Vec.scale ema (1 - alpha)))
        v1

/-- `CentroidPathExtrapolator.extrapolate` (path-extrapolator.ts lines
230-237): throw on empty, otherwise `normalize(mean(path))`. -/
noncomputable def CentroidPathExtrapolator.extrapolate (path : List Vector) :
    Except ExtrapolationError Vector :=
  match path with
  | [] => .error .emptyPath
  | _ :: _ => .ok (Vec.normalize (Vec.mean path))

/-- One round of `powerIteration`'s loop (path-extrapolator.ts lines 340-343):
`Cv = sum(centered.map((x) => scale(x, dot(x, v)))); v = normalize(Cv)`. -/
noncomputable def PCAPathExtrapolator.powerStep (centered : List Vector)
    (v : Vector) : Vector :=
  Vec.normalize (Vec.sum (centered.map (fun x => Vec.scale x (Vec.dot x v))))

/-- `PCAPathExtrapolator.powerIteration` (path-extrapolator.ts lines 337-346):
start from `normalize(centered[0])` and apply the loop a fixed number of
times (50 at the call site). -/
noncomputable def PCAPathExtrapolator.powerIteration (centered : List Vector)
    (iterations : ℕ) : Vector :=
  (PCAPathExtrapolator.powerStep centered)^[iterations]
    (Vec.normalize (centered.headD []))

/-- `PCAPathExtrapolator.computeWeightedProjection` (path-extrapolator.ts
lines 315-335): exponentially recency-weighted average of
`dot(centered[i], principalAxis)` over the last
`min(projectionWindow, centered.length)` points. -/
noncomputable def PCAPathExtrapolator.computeWeightedProjection
    (projectionWindow : ℕ) (decayFactor : ℝ) (centered : List Vector)
    (principalAxis : Vector) : ℝ :=
  let windowSize := min projectionWindow centered.length
  let windowStart := centered.length - windowSize
  let weightedSum :=
    ((List.range windowSize).map (fun i =>
      decayFactor ^ (windowSize - 1 - i) *
        Vec.dot (centered.getD (windowStart + i) []) principalAxis)).sum
  let totalWeight :=
    ((List.range windowSize).map (fun i =>
      decayFactor ^ (windowSize - 1 - i))).sum
  weightedSum / totalWeight

/-- `PCAPathExtrapolator.extrapolate` (path-extrapolator.ts lines 280-303):
throw on empty; fall back to `normalize(mean(path))` below 3 points;
otherwise centre the path, run 50 rounds of power iteration, project, and
renormalize `centroid + axis * (projection * extrapolationFactor)`. -/
noncomputable def PCAPathExtrapolator.extrapolate (p : PCAParams)
    (path : List Vector) : Except ExtrapolationError Vector :=
  match path with
  | [] => .error .emptyPath
  | _ :: _ =>
      if path.length < 3 then .ok (Vec.normalize (Vec.mean path))
      else
        let centroid := Vec.mean path
        let centered := path.map (fun q => Vec.subtract q centroid)
        let principalAxis := PCAPathExtrapolator.powerIteration centered 50
        let projection := PCAPathExtrapolator.computeWeightedProjection
          p.projectionWindow p.decayFactor centered principalAxis
        .ok (Vec.normalize
          (Vec.add centroid
            (Vec.scale principalAxis (projection * p.extrapolationFactor))))

/-- The closed set of strategies, with their construction-time parameters
(the four classes of path-extrapolator.ts). -/
inductive Strategy
  | last
  | momentum (alpha : ℝ)
  | centroid
  | pca (p : PCAParams)

/-- Dispatch of `extrapolate` over the four strategies. -/
noncomputable def Strategy.extrapolate :
    Strategy → List Vector → Except ExtrapolationError Vector
  | .last, path => LastPathExtrapolator.extrapolate path
  | .momentum alpha, path => MomentumPathExtrapolator.extrapolate alpha path
  | .centroid, path => CentroidPathExtrapolator.extrapolate path
  | .pca p, path => PCAPathExtrapolator.extrapolate p path

/-- Default value of `alpha` in `constructor(alpha = 0.6)`
(path-extrapolator.ts line 176). -/
def MomentumPathExtrapolator.defaultAlpha : ℝ := 0.6

/-- Default value of `extrapolationFactor` in the PCA constructor signature
`constructor(extrapolationFactor = 1.5, projectionWindow = 1,
decayFactor = 0.6)` (path-extrapolator.ts lines 264-268). -/
def PCAPathExtrapolator.defaultExtrapolationFactor : ℝ := 1.5

/-- Default value of `projectionWindow` in the PCA constructor signature
(path-extrapolator.ts lines 264-268). -/
def PCAPathExtrapolator.defaultProjectionWindow : ℕ := 1

/-- Default value of `decayFactor` in the PCA constructor signature
(path-extrapolator.ts lines 264-268). -/
def PCAPathExtrapolator.defaultDecayFactor : ℝ := 0.6

/-- `MomentumPathExtrapolator`'s constructor (path-extrapolator.ts lines
176-181): `if (alpha <= 0 || alpha >= 1) throw`. -/
noncomputable def MomentumPathExtrapolator.make (alpha : ℝ) :
    Except ExtrapolationError Strategy :=
  if alpha ≤ 0 ∨ 1 ≤ alpha then .error (.invalidParameter "Alpha must be in (0, 1)")
  else .ok (.momentum alpha)

/-- `PCAPathExtrapolator`'s constructor (path-extrapolator.ts lines 264-278):
`if (projectionWindow < 1) throw; if (decayFactor <= 0 || decayFactor >= 1)
throw`; `extrapolationFactor` is never checked. -/
noncomputable def PCAPathExtrapolator.make (extrapolationFactor : ℝ)
    (projectionWindow : ℕ) (decayFactor : ℝ) :
    Except ExtrapolationError Strategy :=
  if projectionWindow < 1 then
    .error (.invalidParameter "projectionWindow must be at least 1")
  else if decayFactor ≤ 0 ∨ 1 ≤ decayFactor then
    .error (.invalidParameter "decayFactor must be in (0, 1)")
  else .ok (.pca ⟨extrapolationFactor, projectionWindow, decayFactor⟩)

/-- The registry object (path-extrapolator.ts lines 349-354): the four
instances constructed from the hard-coded parameter table. -/
noncomputable def extrapolators : List (String × Strategy) :=
  [("last", .last), ("momentum", .momentum 0.6), ("centroid", .centroid),
   ("pca", .pca ⟨1.5, 15, 0.8⟩)]

/-- `getExtrapolator = (name) => extrapolators[name]` (path-extrapolator.ts
lines 358-359): property access on the registry object, `none` when the name
is not a key (TS types restrict callers to the four keys; at runtime an
unknown name yields `undefined`, i.e. no strategy). -/
noncomputable def getExtrapolator (name : String) : Option Strategy :=
  extrapolators.lookup name

/-- `DEFAULT_EXTRAPOLATOR = "pca"` (path-extrapolator.ts line 361). -/
def DEFAULT_EXTRAPOLATOR : String := "pca"

/-! ### Vector algebra lemmas -/

lemma Vec.dot_self_eq (v : Vector) :
    Vec.dot v v = (v.map (fun x => x * x)).sum := by
  unfold Vec.dot
  induction v with
  | nil => rfl
  | cons x xs ih => simp [ih]

lemma Vec.dot_self_nonneg (v : Vector) : 0 ≤ Vec.dot v v := by
  rw [Vec.dot_self_eq]
  apply List.sum_nonneg
  intro x hx
  rcases List.mem_map.1 hx with ⟨y, _, rfl⟩
  exact mul_self_nonneg y

lemma Vec.magnitude_nonneg (v : Vector) : 0 ≤ Vec.magnitude v :=
  Real.sqrt_nonneg _

lemma Vec.magnitude_eq_zero_iff (v : Vector) :
    Vec.magnitude v = 0 ↔ Vec.dot v v = 0 := by
  unfold Vec.magnitude
  exact Real.sqrt_eq_zero (Vec.dot_self_nonneg v)

lemma Vec.dot_scale_self (v : Vector) (s : ℝ) :
    Vec.dot (Vec.scale v s) (Vec.scale v s) = s ^ 2 * Vec.dot v v := by
  unfold Vec.dot Vec.scale
  induction v with
  | nil => simp
  | cons x xs ih =>
      simp only [List.map_cons, List.zipWith_cons_cons, List.sum_cons, ih]
      ring

lemma Vec.magnitude_scale (v : Vector) (s : ℝ) :
    Vec.magnitude (Vec.scale v s) = |s| * Vec.magnitude v := by
  unfold Vec.magnitude
  rw [Vec.dot_scale_self, Real.sqrt_mul (sq_nonneg s), Real.sqrt_sq_eq_abs]

lemma Vec.magnitude_normalize (v : Vector) (h : Vec.magnitude v ≠ 0) :
    Vec.magnitude (Vec.normalize v) = 1 := by
  have hpos : 0 < Vec.magnitude v :=
    lt_of_le_of_ne (Vec.magnitude_nonneg v) (Ne.symm h)
  unfold Vec.normalize
  rw [if_neg h, Vec.magnitude_scale, abs_of_pos (by positivity)]
  field_simp

lemma Vec.normalize_of_magnitude_zero (v : Vector) (h : Vec.magnitude v = 0) :
    Vec.normalize v = v := by
  unfold Vec.normalize
  rw [if_pos h]

lemma Vec.scale_one (v : Vector) : Vec.scale v 1 = v := by
  unfold Vec.scale
  simp

lemma Vec.normalize_of_magnitude_one (v : Vector) (h : Vec.magnitude v = 1) :
    Vec.normalize v = v := by
  unfold Vec.normalize
  rw [h, if_neg one_ne_zero]
  norm_num [Vec.scale_one]

lemma Vec.magnitude_normalize_dichotomy (v : Vector) :
    Vec.magnitude (Vec.normalize v) = 1 ∨ Vec.magnitude (Vec.normalize v) = 0 := by
  by_cases h : Vec.magnitude v = 0
  · right
    rw [Vec.normalize_of_magnitude_zero v h, h]
  · left
    exact Vec.magnitude_normalize v h

lemma Vec.normalize_idem (v : Vector) :
    Vec.normalize (Vec.normalize v) = Vec.normalize v := by
  by_cases h : Vec.magnitude v = 0
  · rw [Vec.normalize_of_magnitude_zero v h, Vec.normalize_of_magnitude_zero v h]
  · exact Vec.normalize_of_magnitude_one _ (Vec.magnitude_normalize v h)

/-! ### Zero-vector lemmas -/

lemma Vec.dot_zero_right (x : Vector) (d : ℕ) : Vec.dot x (Vec.zero d) = 0 := by
  unfold Vec.dot Vec.zero
  induction x generalizing d with
  | nil => simp
  | cons a as ih =>
      cases d with
      | zero => simp
      | succ d => simpa [List.replicate_succ] using ih d

lemma Vec.scale_zero (x : Vector) : Vec.scale x 0 = Vec.zero x.length := by
  unfold Vec.scale Vec.zero
  induction x with
  | nil => rfl
  | cons a as ih => simp [List.replicate_succ, ih]

lemma Vec.subtract_self (x : Vector) : Vec.subtract x x = Vec.zero x.length := by
  unfold Vec.subtract Vec.zero
  induction x with
  | nil => rfl
  | cons a as ih => simp [List.replicate_succ, ih]

lemma Vec.add_zero_zero (d : ℕ) : Vec.add (Vec.zero d) (Vec.zero d) = Vec.zero d := by
  unfold Vec.add Vec.zero
  induction d with
  | zero => rfl
  | succ d ih => simp [List.replicate_succ, ih]

lemma Vec.add_zero_right (a : Vector) (d : ℕ) (h : a.length = d) :
    Vec.add a (Vec.zero d) = a := by
  unfold Vec.add Vec.zero
  subst h
  induction a with
  | nil => rfl
  | cons x xs ih => simp [List.replicate_succ, ih]

lemma Vec.magnitude_zero (d : ℕ) : Vec.magnitude (Vec.zero d) = 0 := by
  rw [Vec.magnitude_eq_zero_iff]
  exact Vec.dot_zero_right _ d

lemma Vec.normalize_zero (d : ℕ) : Vec.normalize (Vec.zero d) = Vec.zero d :=
  Vec.normalize_of_magnitude_zero _ (Vec.magnitude_zero d)

/-! ### Length lemmas -/

lemma Vec.add_length (a b : Vector) :
    (Vec.add a b).length = min a.length b.length := by
  unfold Vec.add
  simp

lemma Vec.subtract_length (a b : Vector) :
    (Vec.subtract a b).length = min a.length b.length := by
  unfold Vec.subtract
  simp

lemma Vec.scale_length (v : Vector) (s : ℝ) :
    (Vec.scale v s).length = v.length := by
  unfold Vec.scale
  simp

lemma Vec.foldl_add_length (vs : List Vector) (a : Vector) (D : ℕ)
    (ha : a.length = D) (h : ∀ v ∈ vs, v.length = D) :
    (vs.foldl Vec.add a).length = D := by
  induction vs generalizing a with
  | nil => simpa using ha
  | cons x xs ih =>
      simp only [List.foldl_cons]
      refine ih _ ?_ (fun v hv => h v (List.mem_cons_of_mem _ hv))
      rw [Vec.add_length, ha, h x (List.mem_cons_self _ _)]
      simp

lemma Vec.mean_length (vs : List Vector) (D : ℕ) (hne : vs ≠ [])
    (h : ∀ v ∈ vs, v.length = D) : (Vec.mean vs).length = D := by
  unfold Vec.mean
  rw [Vec.scale_length]
  refine Vec.foldl_add_length vs _ D ?_ h
  rcases vs with _ | ⟨x, xs⟩
  · exact absurd rfl hne
  · simp [Vec.zero, h x (List.mem_cons_self _ _)]

/-! ### Permutation invariance of the centroid -/

lemma Vec.add_swap (z x y : Vector) :
    Vec.add (Vec.add z x) y = Vec.add (Vec.add z y) x := by
  unfold Vec.add
  induction z generalizing x y with
  | nil => simp
  | cons a as ih =>
      cases x with
      | nil => simp
      | cons b bs =>
          cases y with
          | nil => simp
          | cons c cs =>
              simp only [List.zipWith_cons_cons]
              rw [ih bs cs]
              ring_nf

lemma Vec.mean_perm (p q : List Vector) (D : ℕ) (hperm : p.Perm q)
    (hne : p ≠ []) (hd : ∀ v ∈ p, v.length = D) : Vec.mean p = Vec.mean q := by
  have hqd : ∀ v ∈ q, v.length = D := fun v hv => hd v (hperm.mem_iff.2 hv)
  have hqne : q ≠ [] := by
    intro hq
    exact hne (List.Perm.eq_nil (hq ▸ hperm))
  have hhp : (p.headD []).length = D := by
    rcases p with _ | ⟨x, xs⟩
    · exact absurd rfl hne
    · exact hd x (List.mem_cons_self _ _)
  have hhq : (q.headD []).length = D := by
    rcases q with _ | ⟨x, xs⟩
    · exact absurd rfl hqne
    · exact hqd x (List.mem_cons_self _ _)
  unfold Vec.mean
  rw [hhp, hhq, hperm.length_eq]
  congr 1
  exact hperm.foldl_eq' (fun x _ y _ z => Vec.add_swap z x y) _

/-! ### Momentum: the code's EMA loop equals the spec's fold -/

lemma MomentumPathExtrapolator.emaStep_eq_spec (alpha : ℝ) (ema v : Vector) :
    MomentumPathExtrapolator.emaStep alpha ema v =
      Vec.add (Vec.scale v alpha) (Vec.scale ema (1 - alpha)) := by
  unfold MomentumPathExtrapolator.emaStep Vec.add Vec.scale
  induction ema generalizing v with
  | nil => simp
  | cons e es ih =>
      cases v with
      | nil => simp
      | cons x xs =>
          simp only [List.map_cons, List.zipWith_cons_cons]
          rw [ih xs]
          congr 1
          ring

lemma MomentumPathExtrapolator.emaGo_eq_foldl (alpha : ℝ) (rest : List Vector) :
    ∀ (prev ema : Vector),
      MomentumPathExtrapolator.emaGo alpha ema prev rest =
        (List.zipWith Vec.subtract rest (prev :: rest)).foldl
          (MomentumPathExtrapolator.emaStep alpha) ema := by
  induction rest with
  | nil => intro prev ema; rfl
  | cons p ps ih =>
      intro prev ema
      simp only [List.zipWith_cons_cons, List.foldl_cons]
      exact ih p _

lemma MomentumPathExtrapolator.computeVelocityEma_eq_spec (alpha : ℝ)
    (p0 p1 : Vector) (rest : List Vector) :
    MomentumPathExtrapolator.computeVelocityEma alpha (p0 :: p1 :: rest) =
      MomentumPathExtrapolator.emaFromSpec alpha (p0 :: p1 :: rest) := by
  unfold MomentumPathExtrapolator.computeVelocityEma
    MomentumPathExtrapolator.emaFromSpec
  simp only [List.tail_cons, List.zipWith_cons_cons]
  rw [MomentumPathExtrapolator.emaGo_eq_foldl]
  congr 1
  funext ema v
  exact MomentumPathExtrapolator.emaStep_eq_spec alpha ema v

/-! ### Raw entrywise behaviour of add/subtract on mismatched lengths -/

lemma Vec.addEntries_length (a b : List ℝ) :
    (Vec.addEntries a b).length = a.length := by
  induction a generalizing b with
  | nil => cases b <;> rfl
  | cons x xs ih => cases b <;> simp [Vec.addEntries, ih]

lemma Vec.subtractEntries_length (a b : List ℝ) :
    (Vec.subtractEntries a b).length = a.length := by
  induction a generalizing b with
  | nil => cases b <;> rfl
  | cons x xs ih => cases b <;> simp [Vec.subtractEntries, ih]

lemma Vec.addEntries_eq_of_le (a b : List ℝ) (h : a.length ≤ b.length) :
    Vec.addEntries a b = (Vec.add a b).map some := by
  induction a generalizing b with
  | nil => cases b <;> rfl
  | cons x xs ih =>
      cases b with
      | nil => simp at h
      | cons y ys =>
          simp only [List.length_cons, Nat.succ_le_succ_iff] at h
          simp [Vec.addEntries, Vec.add, ih ys h]

lemma Vec.subtractEntries_eq_of_le (a b : List ℝ) (h : a.length ≤ b.length) :
    Vec.subtractEntries a b = (Vec.subtract a b).map some := by
  induction a generalizing b with
  | nil => cases b <;> rfl
  | cons x xs ih =>
      cases b with
      | nil => simp at h
      | cons y ys =>
          simp only [List.length_cons, Nat.succ_le_succ_iff] at h
          simp [Vec.subtractEntries, Vec.subtract, ih ys h]

lemma Vec.addEntries_getD_none (a b : List ℝ) (i : ℕ) (h : b.length ≤ i) :
    (Vec.addEntries a b).getD i none = none := by
  induction a generalizing b i with
  | nil => cases b <;> simp [Vec.addEntries]
  | cons x xs ih =>
      cases b with
      | nil =>
          cases i with
          | zero => rfl
          | succ i => simpa [Vec.addEntries] using ih [] i (by simp)
      | cons y ys =>
          cases i with
          | zero => simp at h
          | succ i =>
              simp only [List.length_cons, Nat.succ_le_succ_iff] at h
              simpa [Vec.addEntries] using ih ys i h

lemma Vec.subtractEntries_getD_none (a b : List ℝ) (i : ℕ) (h : b.length ≤ i) :
    (Vec.subtractEntries a b).getD i none = none := by
  induction a generalizing b i with
  | nil => cases b <;> simp [Vec.subtractEntries]
  | cons x xs ih =>
      cases b with
      | nil =>
          cases i with
          | zero => rfl
          | succ i => simpa [Vec.subtractEntries] using ih [] i (by simp)
      | cons y ys =>
          cases i with
          | zero => simp at h
          | succ i =>
              simp only [List.length_cons, Nat.succ_le_succ_iff] at h
              simpa [Vec.subtractEntries] using ih ys i h

/-! ### Zero fixed point of the PCA power iteration -/

lemma Vec.scale_zero_vec (d : ℕ) (c : ℝ) :
    Vec.scale (Vec.zero d) c = Vec.zero d := by
  unfold Vec.scale Vec.zero
  induction d with
  | zero => rfl
  | succ d ih => simp [List.replicate_succ, ih]

lemma Vec.foldl_add_zeros (d : ℕ) (vs : List Vector)
    (h : ∀ v ∈ vs, v = Vec.zero d) :
    vs.foldl Vec.add (Vec.zero d) = Vec.zero d := by
  induction vs with
  | nil => rfl
  | cons x xs ih =>
      simp only [List.foldl_cons]
      rw [h x (List.mem_cons_self _ _), Vec.add_zero_zero]
      exact ih (fun v hv => h v (List.mem_cons_of_mem _ hv))

lemma Vec.sum_zeros (d : ℕ) (vs : List Vector) (hne : vs ≠ [])
    (h : ∀ v ∈ vs, v = Vec.zero d) : Vec.sum vs = Vec.zero d := by
  unfold Vec.sum
  have hh : (vs.headD []).length = d := by
    rcases vs with _ | ⟨x, xs⟩
    · exact absurd rfl hne
    · rw [List.headD_cons, h x (List.mem_cons_self _ _)]
      simp [Vec.zero]
  rw [hh]
  exact Vec.foldl_add_zeros d vs h

lemma PCAPathExtrapolator.Cv_zero (centered : List Vector) (D : ℕ)
    (hne : centered ≠ []) (hd : ∀ x ∈ centered, x.length = D) :
    Vec.sum (centered.map (fun x => Vec.scale x (Vec.dot x (Vec.zero D)))) =
      Vec.zero D := by
  apply Vec.sum_zeros
  · simpa using hne
  · intro v hv
    rcases List.mem_map.1 hv with ⟨x, hx, rfl⟩
    rw [Vec.dot_zero_right, Vec.scale_zero, hd x hx]

lemma PCAPathExtrapolator.powerStep_zero (centered : List Vector) (D : ℕ)
    (hne : centered ≠ []) (hd : ∀ x ∈ centered, x.length = D) :
    PCAPathExtrapolator.powerStep centered (Vec.zero D) = Vec.zero D := by
  unfold PCAPathExtrapolator.powerStep
  rw [PCAPathExtrapolator.Cv_zero centered D hne hd, Vec.normalize_zero]

lemma PCAPathExtrapolator.powerIteration_zero (centered : List Vector)
    (D iters : ℕ) (hne : centered ≠ []) (hd : ∀ x ∈ centered, x.length = D)
    (hhead : centered.headD [] = Vec.zero D) :
    PCAPathExtrapolator.powerIteration centered iters = Vec.zero D := by
  unfold PCAPathExtrapolator.powerIteration
  rw [hhead, Vec.normalize_zero]
  exact Function.iterate_fixed
    (PCAPathExtrapolator.powerStep_zero centered D hne hd) iters

/-! ### Claim theorems -/

/-- C1: every strategy (last, momentum, centroid, pca — the four variants
the registry holds) run on an empty path fails with the empty-path error and
yields no vector. -/
theorem empty_path_error :
    ∀ s : Strategy, s.extrapolate [] = .error .emptyPath := by
  intro s
  cases s <;> rfl

/-- C2: on every path of at least two vectors, Momentum's `extrapolate`
returns `normalize(last + ema)` where the EMA is seeded with the first
velocity and folded with `ema ← alpha * v + (1 - alpha) * ema` (the spec's
wording, `emaFromSpec`); on the concrete path `[(1,0), (0,1)]` with
`alpha = 0.6` the pre-normalize vector is `(-1, 2)` and the output is its
normalization `(-1/√5, 2/√5) ≈ (-0.447, 0.894)`. -/
theorem momentum_extrapolate_spec :
    (∀ (alpha : ℝ) (p0 p1 : Vector) (rest : List Vector),
      MomentumPathExtrapolator.extrapolate alpha (p0 :: p1 :: rest) =
        .ok (Vec.normalize (Vec.add ((p0 :: p1 :: rest).getLastD [])
          (MomentumPathExtrapolator.emaFromSpec alpha (p0 :: p1 :: rest))))) ∧
    MomentumPathExtrapolator.extrapolate 0.6 [[1, 0], [0, 1]] =
      .ok (Vec.normalize [-1, 2]) ∧
    Vec.normalize [(-1 : ℝ), 2] =
      [-(1 / Real.sqrt 5), 2 * (1 / Real.sqrt 5)] := by
  refine ⟨?_, ?_, ?_⟩
  · intro alpha p0 p1 rest
    simp only [MomentumPathExtrapolator.extrapolate,
      MomentumPathExtrapolator.computeVelocityEma_eq_spec]
  · show Except.ok _ = _
    norm_num [MomentumPathExtrapolator.computeVelocityEma,
      MomentumPathExtrapolator.emaGo, Vec.subtract, Vec.add]
  · have hd : Vec.dot [(-1 : ℝ), 2] [(-1 : ℝ), 2] = 5 := by
      norm_num [Vec.dot]
    have hm : Vec.magnitude [(-1 : ℝ), 2] = Real.sqrt 5 := by
      rw [Vec.magnitude, hd]
    have hne : Real.sqrt 5 ≠ 0 := by
      have : (0 : ℝ) < Real.sqrt 5 := Real.sqrt_pos.2 (by norm_num)
      linarith
    unfold Vec.normalize
    rw [hm, if_neg hne]
    unfold Vec.scale
    norm_num

/-- C4: registry lookup returns the registered instance for each of the four
registered names and produces no strategy for any other name (the code has no
runtime check: the TS type restricts callers to the four keys, and property
access on any other name yields `undefined`, modelled as `none`). -/
theorem registry_lookup :
    getExtrapolator "last" = some .last ∧
    getExtrapolator "momentum" = some (.momentum 0.6) ∧
    getExtrapolator "centroid" = some .centroid ∧
    getExtrapolator "pca" = some (.pca ⟨1.5, 15, 0.8⟩) ∧
    ∀ name : String, name ∉ ["last", "momentum", "centroid", "pca"] →
      getExtrapolator name = none := by
  refine ⟨rfl, rfl, rfl, rfl, ?_⟩
  intro name h
  simp only [List.mem_cons, List.not_mem_nil, or_false, not_or] at h
  obtain ⟨h1, h2, h3, h4⟩ := h
  have e1 : (name == "last") = false := beq_eq_false_iff_ne.mpr h1
  have e2 : (name == "momentum") = false := beq_eq_false_iff_ne.mpr h2
  have e3 : (name == "centroid") = false := beq_eq_false_iff_ne.mpr h3
  have e4 : (name == "pca") = false := beq_eq_false_iff_ne.mpr h4
  simp [getExtrapolator, extrapolators, List.lookup, e1, e2, e3, e4]

/-- C4 witness: lookup of the unregistered name `"nonexistent"` yields no
strategy. -/
theorem registry_lookup_witness : getExtrapolator "nonexistent" = none :=
  registry_lookup.2.2.2.2 "nonexistent" (by simp)

/-- C5 counterexample: the PCA constructor's default parameters are not
`(1.5, 15, 0.8)` — the defaults in the constructor signature are
`(1.5, 1, 0.6)`. -/
theorem pca_defaults_counterexample :
    ¬(PCAPathExtrapolator.defaultExtrapolationFactor = 1.5 ∧
      PCAPathExtrapolator.defaultProjectionWindow = 15 ∧
      PCAPathExtrapolator.defaultDecayFactor = 0.8) := by
  intro h
  have h15 := h.2.1
  norm_num [PCAPathExtrapolator.defaultProjectionWindow] at h15

/-- C5 amended: the PCA constructor's defaults are `(1.5, 1, 0.6)`; the
registry's pca entry is constructed explicitly with `(1.5, 15, 0.8)`, and
that construction passes the parameter validation. -/
theorem pca_defaults_and_registry :
    PCAPathExtrapolator.defaultExtrapolationFactor = 1.5 ∧
    PCAPathExtrapolator.defaultProjectionWindow = 1 ∧
    PCAPathExtrapolator.defaultDecayFactor = 0.6 ∧
    getExtrapolator "pca" = some (.pca ⟨1.5, 15, 0.8⟩) ∧
    PCAPathExtrapolator.make 1.5 15 0.8 = .ok (.pca ⟨1.5, 15, 0.8⟩) := by
  refine ⟨rfl, rfl, rfl, rfl, ?_⟩
  unfold PCAPathExtrapolator.make
  rw [if_neg (by norm_num), if_neg (by norm_num)]

/-- C7: Momentum's constructor fails exactly when `alpha` is outside the open
interval `(0,1)`; PCA's constructor fails exactly when `decayFactor` is
outside `(0,1)` or `projectionWindow < 1`, with `extrapolationFactor`
unconstrained; and no `extrapolate` call ever raises a parameter error — the
only per-call error is the empty-path one. -/
theorem constructor_validation :
    (∀ alpha : ℝ,
      (∃ e, MomentumPathExtrapolator.make alpha = .error e) ↔
        ¬(0 < alpha ∧ alpha < 1)) ∧
    (∀ (extrapolationFactor : ℝ) (projectionWindow : ℕ) (decayFactor : ℝ),
      (∃ e, PCAPathExtrapolator.make extrapolationFactor projectionWindow
          decayFactor = .error e) ↔
        (projectionWindow < 1 ∨ ¬(0 < decayFactor ∧ decayFactor < 1))) ∧
    (∀ (s : Strategy) (path : List Vector) (e : ExtrapolationError),
      s.extrapolate path = .error e → e = .emptyPath) := by
  refine ⟨?_, ?_, ?_⟩
  · intro alpha
    unfold MomentumPathExtrapolator.make
    by_cases hc : alpha ≤ 0 ∨ 1 ≤ alpha
    · rw [if_pos hc]
      simp only [Except.error.injEq, exists_eq', true_iff]
      rintro ⟨h0, h1⟩
      rcases hc with h | h <;> linarith
    · rw [if_neg hc]
      push_neg at hc
      simp [hc]
  · intro ef pw df
    unfold PCAPathExtrapolator.make
    by_cases hw : pw < 1
    · rw [if_pos hw]
      simp [hw]
    · rw [if_neg hw]
      by_cases hc : df ≤ 0 ∨ 1 ≤ df
      · rw [if_pos hc]
        simp only [Except.error.injEq, exists_eq', true_iff]
        right
        rintro ⟨h0, h1⟩
        rcases hc with h | h <;> linarith
      · rw [if_neg hc]
        push_neg at hc
        simp [hw, hc]
  · intro s path e h
    cases s with
    | last =>
        have h' : LastPathExtrapolator.extrapolate path = Except.error e := h
        unfold LastPathExtrapolator.extrapolate at h'
        rcases hg : path.getLast? with _ | v <;> rw [hg] at h'
        · simpa using h'.symm
        · simp at h'
    | momentum alpha =>
        have h' : MomentumPathExtrapolator.extrapolate alpha path =
            Except.error e := h
        rcases path with _ | ⟨p0, _ | ⟨p1, rest⟩⟩ <;>
          simp [MomentumPathExtrapolator.extrapolate] at h'
        exact h'.symm
    | centroid =>
        have h' : CentroidPathExtrapolator.extrapolate path =
            Except.error e := h
        rcases path with _ | ⟨p0, rest⟩ <;>
          simp [CentroidPathExtrapolator.extrapolate] at h'
        exact h'.symm
    | pca p =>
        have h' : PCAPathExtrapolator.extrapolate p path =
            Except.error e := h
        rcases path with _ | ⟨p0, rest⟩
        · simpa [PCAPathExtrapolator.extrapolate] using h'.symm
        · simp only [PCAPathExtrapolator.extrapolate] at h'
          split at h' <;> simp at h'

/-- C7 witness: `alpha = 2` is rejected at construction, and the empty-path
run of the `last` strategy is the per-call error case. -/
theorem constructor_validation_witness :
    (∃ e, MomentumPathExtrapolator.make 2 = Except.error e) ∧
    ExtrapolationError.emptyPath = ExtrapolationError.emptyPath :=
  ⟨(constructor_validation.1 2).mpr (by norm_num),
   constructor_validation.2.2 .last [] .emptyPath rfl⟩

/-- C9: `add` and `subtract` on vectors of different lengths raise no error;
the result has the first argument's length, is the truncated element-wise
result when `a` is shorter, and has undefined (`none`) entries at every index
past the end of `b` when `a` is longer. -/
theorem add_subtract_length_mismatch :
    ∀ a b : List ℝ, a.length ≠ b.length →
      (Vec.addEntries a b).length = a.length ∧
      (Vec.subtractEntries a b).length = a.length ∧
      (a.length ≤ b.length →
        Vec.addEntries a b = (Vec.add a b).map some ∧
        Vec.subtractEntries a b = (Vec.subtract a b).map some) ∧
      (∀ i : ℕ, b.length ≤ i →
        (Vec.addEntries a b).getD i none = none ∧
        (Vec.subtractEntries a b).getD i none = none) := by
  intro a b _
  exact ⟨Vec.addEntries_length a b, Vec.subtractEntries_length a b,
    fun h => ⟨Vec.addEntries_eq_of_le a b h, Vec.subtractEntries_eq_of_le a b h⟩,
    fun i hi => ⟨Vec.addEntries_getD_none a b i hi,
      Vec.subtractEntries_getD_none a b i hi⟩⟩

/-- C9 witness: `add([1,2,3], [10])` has length 3 with the entries past
`b`'s end undefined. -/
theorem add_subtract_length_mismatch_witness :
    (Vec.addEntries [(1 : ℝ), 2, 3] [10]).length = 3 ∧
    (Vec.addEntries [(1 : ℝ), 2, 3] [10]).getD 1 none = none := by
  have h := add_subtract_length_mismatch [(1 : ℝ), 2, 3] [10] (by simp)
  exact ⟨h.1, (h.2.2.2 1 (by simp)).1⟩

/-- C10: `normalize` is idempotent on every vector; its output is the input
itself when the magnitude is zero and a vector of magnitude exactly 1
otherwise. -/
theorem normalize_idempotent :
    ∀ v : Vector,
      Vec.normalize (Vec.normalize v) = Vec.normalize v ∧
      (Vec.magnitude v = 0 → Vec.normalize v = v) ∧
      (Vec.magnitude v ≠ 0 → Vec.magnitude (Vec.normalize v) = 1) :=
  fun v => ⟨Vec.normalize_idem v, Vec.normalize_of_magnitude_zero v,
    Vec.magnitude_normalize v⟩

/-- C10 witness: at `v = (3,4)` the normalization is idempotent and the
normalized vector has magnitude 1. -/
theorem normalize_idempotent_witness :
    Vec.normalize (Vec.normalize [(3 : ℝ), 4]) = Vec.normalize [(3 : ℝ), 4] ∧
    Vec.magnitude (Vec.normalize [(3 : ℝ), 4]) = 1 := by
  have hd : Vec.dot [(3 : ℝ), 4] [(3 : ℝ), 4] = 25 := by norm_num [Vec.dot]
  have hne : Vec.magnitude [(3 : ℝ), 4] ≠ 0 := by
    rw [Vec.magnitude, hd]
    have : (0 : ℝ) < Real.sqrt 25 := Real.sqrt_pos.2 (by norm_num)
    linarith
  exact ⟨(normalize_idempotent [(3 : ℝ), 4]).1,
    (normalize_idempotent [(3 : ℝ), 4]).2.2 hne⟩

/-- C6: the Centroid strategy is invariant under any permutation of a
non-empty path of dimension-`D` vectors (it is a function of the multiset of
points only), in exact arithmetic. -/
theorem centroid_permutation_invariant :
    ∀ (p q : List Vector) (D : ℕ), p.Perm q → p ≠ [] →
      (∀ v ∈ p, v.length = D) →
      CentroidPathExtrapolator.extrapolate p =
        CentroidPathExtrapolator.extrapolate q := by
  intro p q D hperm hne hd
  have hqne : q ≠ [] := fun hq => hne (List.Perm.eq_nil (hq ▸ hperm))
  have hm := Vec.mean_perm p q D hperm hne hd
  rcases p with _ | ⟨x, xs⟩
  · exact absurd rfl hne
  rcases q with _ | ⟨y, ys⟩
  · exact absurd rfl hqne
  unfold CentroidPathExtrapolator.extrapolate
  rw [hm]

/-- C6 witness: swapping the two points of `[(1,0), (0,1)]` leaves the
Centroid output unchanged. -/
theorem centroid_permutation_invariant_witness :
    CentroidPathExtrapolator.extrapolate [[(1 : ℝ), 0], [0, 1]] =
      CentroidPathExtrapolator.extrapolate [[(0 : ℝ), 1], [1, 0]] :=
  centroid_permutation_invariant [[(1 : ℝ), 0], [0, 1]] [[(0 : ℝ), 1], [1, 0]]
    2 (List.Perm.swap [0, 1] [1, 0] []) (by simp)
    (by
      intro v hv
      simp only [List.mem_cons, List.not_mem_nil, or_false] at hv
      rcases hv with rfl | rfl <;> rfl)

/-- C3 counterexample: the claim fails as stated.  On the path `[(1), (-1)]`,
whose vectors are non-zero, Centroid's output is the zero vector (magnitude
0, not 1): the mean of antipodal points is zero and `normalize` leaves it
unchanged.  And on the non-empty single-point path `[(2, 0)]`, Momentum
returns the point unchanged with magnitude 2. -/
theorem strategy_output_unit_counterexample :
    CentroidPathExtrapolator.extrapolate [[(1 : ℝ)], [-1]] = .ok [0] ∧
    Vec.magnitude [(0 : ℝ)] = 0 ∧
    Vec.magnitude [(1 : ℝ)] ≠ 0 ∧
    Vec.magnitude [(-1 : ℝ)] ≠ 0 ∧
    MomentumPathExtrapolator.extrapolate 0.6 [[2, 0]] = .ok [2, 0] ∧
    Vec.magnitude [(2 : ℝ), 0] = 2 := by
  have hmag0 : Vec.magnitude [(0 : ℝ)] = 0 := by
    have hd : Vec.dot [(0 : ℝ)] [(0 : ℝ)] = 0 := by norm_num [Vec.dot]
    rw [Vec.magnitude, hd, Real.sqrt_zero]
  refine ⟨?_, hmag0, ?_, ?_, rfl, ?_⟩
  · have hmean : Vec.mean [[(1 : ℝ)], [-1]] = [0] := by
      norm_num [Vec.mean, Vec.add, Vec.zero, Vec.scale, List.replicate_succ]
    show Except.ok (Vec.normalize (Vec.mean [[(1 : ℝ)], [-1]])) = _
    rw [hmean, Vec.normalize_of_magnitude_zero _ hmag0]
  · have hd : Vec.dot [(1 : ℝ)] [(1 : ℝ)] = 1 := by norm_num [Vec.dot]
    rw [Vec.magnitude, hd, Real.sqrt_one]
    norm_num
  · have hd : Vec.dot [(-1 : ℝ)] [(-1 : ℝ)] = 1 := by norm_num [Vec.dot]
    rw [Vec.magnitude, hd, Real.sqrt_one]
    norm_num
  · have hd : Vec.dot [(2 : ℝ), 0] [(2 : ℝ), 0] = 4 := by norm_num [Vec.dot]
    rw [Vec.magnitude, hd, show (4 : ℝ) = 2 ^ 2 by norm_num,
      Real.sqrt_sq (by norm_num : (0 : ℝ) ≤ 2)]

/-- C3 amended: every successful output of Centroid and PCA (on any path)
and of Momentum (on paths of at least two points) has magnitude exactly 1 or
exactly 0 — 1 whenever the vector being normalized is non-zero, and the zero
vector in the degenerate cancellation cases; Momentum on a single-point path
returns the point unchanged and is excluded. -/
theorem strategy_output_unit_or_zero :
    ∀ (path : List Vector) (v : Vector),
      (CentroidPathExtrapolator.extrapolate path = .ok v →
        Vec.magnitude v = 1 ∨ Vec.magnitude v = 0) ∧
      (∀ p : PCAParams, PCAPathExtrapolator.extrapolate p path = .ok v →
        Vec.magnitude v = 1 ∨ Vec.magnitude v = 0) ∧
      (∀ alpha : ℝ, 2 ≤ path.length →
        MomentumPathExtrapolator.extrapolate alpha path = .ok v →
        Vec.magnitude v = 1 ∨ Vec.magnitude v = 0) := by
  intro path v
  refine ⟨?_, ?_, ?_⟩
  · intro h
    rcases path with _ | ⟨p0, rest⟩
    · simp [CentroidPathExtrapolator.extrapolate] at h
    · simp only [CentroidPathExtrapolator.extrapolate, Except.ok.injEq] at h
      rw [← h]
      exact Vec.magnitude_normalize_dichotomy _
  · intro p h
    rcases path with _ | ⟨p0, rest⟩
    · simp [PCAPathExtrapolator.extrapolate] at h
    · simp only [PCAPathExtrapolator.extrapolate] at h
      split at h <;>
        (simp only [Except.ok.injEq] at h
         rw [← h]
         exact Vec.magnitude_normalize_dichotomy _)
  · intro alpha hlen h
    rcases path with _ | ⟨p0, _ | ⟨p1, rest⟩⟩
    · simp at hlen
    · simp only [List.length_singleton] at hlen
      omega
    · simp only [MomentumPathExtrapolator.extrapolate, Except.ok.injEq] at h
      rw [← h]
      exact Vec.magnitude_normalize_dichotomy _

/-- C3 witness: Centroid on the path `[(3, 4)]` yields a vector of magnitude
1 or 0 (here in fact 1). -/
theorem strategy_output_unit_or_zero_witness :
    Vec.magnitude (Vec.normalize (Vec.mean [[(3 : ℝ), 4]])) = 1 ∨
    Vec.magnitude (Vec.normalize (Vec.mean [[(3 : ℝ), 4]])) = 0 :=
  (strategy_output_unit_or_zero [[(3 : ℝ), 4]]
    (Vec.normalize (Vec.mean [[(3 : ℝ), 4]]))).1 rfl

/-- C8: when a path of at least 3 dimension-`D` points starts at its own
centroid, the first centered point is the zero vector, so the power-iteration
seed `normalize(0)` is zero, every `Cv = Σ dot(x, v) * x` step yields zero
and `normalize` keeps it zero; the returned principal axis is the zero
vector, and `extrapolate` raises no error — it returns
`normalize(centroid + 0)`, i.e. `normalize(mean(path))`. -/
theorem pca_zero_seed_degenerate :
    ∀ (p : PCAParams) (path : List Vector) (D : ℕ),
      3 ≤ path.length → (∀ v ∈ path, v.length = D) →
      path.headD [] = Vec.mean path →
      Vec.sum ((path.map (fun q => Vec.subtract q (Vec.mean path))).map
          (fun x => Vec.scale x (Vec.dot x (Vec.zero D)))) = Vec.zero D ∧
      PCAPathExtrapolator.powerIteration
        (path.map (fun q => Vec.subtract q (Vec.mean path))) 50 = Vec.zero D ∧
      PCAPathExtrapolator.extrapolate p path =
        .ok (Vec.normalize (Vec.mean path)) := by
  intro p path D hlen hd hhead
  obtain ⟨p0, rest, rfl⟩ : ∃ p0 rest, path = p0 :: rest := by
    rcases path with _ | ⟨p0, rest⟩
    · simp at hlen
    · exact ⟨p0, rest, rfl⟩
  have hne : (p0 :: rest : List Vector) ≠ [] := by simp
  have hDmean : (Vec.mean (p0 :: rest)).length = D :=
    Vec.mean_length _ D hne hd
  have hcne : (p0 :: rest).map
      (fun q => Vec.subtract q (Vec.mean (p0 :: rest))) ≠ [] := by simp
  have hcd : ∀ x ∈ (p0 :: rest).map
      (fun q => Vec.subtract q (Vec.mean (p0 :: rest))), x.length = D := by
    intro x hx
    rcases List.mem_map.1 hx with ⟨q, hq, rfl⟩
    rw [Vec.subtract_length, hd q hq, hDmean, min_self]
  have hp0 : p0 = Vec.mean (p0 :: rest) := by simpa using hhead
  have hchead : ((p0 :: rest).map
      (fun q => Vec.subtract q (Vec.mean (p0 :: rest)))).headD [] =
        Vec.zero D := by
    simp only [List.map_cons, List.headD_cons]
    rw [← hp0, Vec.subtract_self, hd p0 (List.mem_cons_self _ _)]
  have hpow := PCAPathExtrapolator.powerIteration_zero
    ((p0 :: rest).map (fun q => Vec.subtract q (Vec.mean (p0 :: rest))))
    D 50 hcne hcd hchead
  refine ⟨PCAPathExtrapolator.Cv_zero _ D hcne hcd, hpow, ?_⟩
  simp only [PCAPathExtrapolator.extrapolate]
  rw [if_neg (Nat.not_lt.mpr hlen), hpow, Vec.scale_zero_vec,
    Vec.add_zero_right _ D hDmean]

/-- C8 witness: the 1-dimensional path `[(0), (1), (-1)]` starts at its
centroid `(0)`; the principal axis comes out as the zero vector and PCA
returns `normalize(mean(path))` without error. -/
theorem pca_zero_seed_degenerate_witness :
    PCAPathExtrapolator.powerIteration
      ([[(0 : ℝ)], [1], [-1]].map
        (fun q => Vec.subtract q (Vec.mean [[(0 : ℝ)], [1], [-1]]))) 50 =
      Vec.zero 1 ∧
    PCAPathExtrapolator.extrapolate ⟨1.5, 15, 0.8⟩ [[(0 : ℝ)], [1], [-1]] =
      .ok (Vec.normalize (Vec.mean [[(0 : ℝ)], [1], [-1]])) := by
  have hd : ∀ v ∈ ([[(0 : ℝ)], [1], [-1]] : List Vector), v.length = 1 := by
    intro v hv
    simp only [List.mem_cons, List.not_mem_nil, or_false] at hv
    rcases hv with rfl | rfl | rfl <;> rfl
  have hh : ([[(0 : ℝ)], [1], [-1]] : List Vector).headD [] =
      Vec.mean [[(0 : ℝ)], [1], [-1]] := by
    norm_num [Vec.mean, Vec.add, Vec.zero, Vec.scale, List.replicate_succ]
  have h := pca_zero_seed_degenerate ⟨1.5, 15, 0.8⟩ [[(0 : ℝ)], [1], [-1]] 1
    (by simp) hd hh
  exact ⟨h.2.1, h.2.2⟩

end ImageExplorer
